import Mathlib

/-!
Verification development for the ccna repository (src/ccna/ipv4.py, src/ccna/ipv6.py).
The Python functions are shallowly embedded as executable Lean definitions:
IPv4/IPv6 addresses are natural numbers below 2^32 / 2^128, the address-library
calls (parsing, rendering, network masking) are modelled after CPython's
ipaddress module, and fallible code returns Except.
-/

namespace CCNA

/-! ## String utilities modelling Python string handling -/

/-- Models Python str.split(sep) for a one-character separator (accumulator form). -/
def splitChAux (sep : Char) : List Char → List Char → List (List Char)
  | [], acc => [acc.reverse]
  | c :: cs, acc =>
    if c = sep then acc.reverse :: splitChAux sep cs []
    else splitChAux sep cs (c :: acc)

def splitCh (sep : Char) (l : List Char) : List (List Char) := splitChAux sep l []

/-- Models Python str.split on the two-character separator used for the
IPv6 double colon: leftmost, non-overlapping occurrences. -/
def splitCCAux : List Char → List Char → List (List Char)
  | [], acc => [acc.reverse]
  | ':' :: ':' :: rest, acc => acc.reverse :: splitCCAux rest []
  | c :: rest, acc => splitCCAux rest (c :: acc)

def splitCC (l : List Char) : List (List Char) := splitCCAux l []

/-- Decimal digits of n, least significant last; models Python str(n) for
n below 10^16 (fuel 16 covers every number the embedded code renders). -/
def decDigitsAux : Nat → Nat → List Char
  | 0, _ => []
  | fuel + 1, n =>
    if n < 10 then [Char.ofNat (48 + n)]
    else decDigitsAux fuel (n / 10) ++ [Char.ofNat (48 + n % 10)]

def decStr (n : Nat) : String := String.mk (decDigitsAux 16 n)

/-- Numeric value of a list of decimal digit characters, as Python int() computes it. -/
def decVal (cs : List Char) : Nat := cs.foldl (fun a c => a * 10 + (c.toNat - 48)) 0

/-- Lowercase hex character for a value below 16. -/
def hexChar (n : Nat) : Char := if n < 10 then Char.ofNat (48 + n) else Char.ofNat (87 + n)

/-- Lowercase hex digits without leading zeros; models Python format(n, 'x')
for n below 16^12 (every hextet value is below 2^16). -/
def hexDigitsAux : Nat → Nat → List Char
  | 0, _ => []
  | fuel + 1, n =>
    if n < 16 then [hexChar n]
    else hexDigitsAux fuel (n / 16) ++ [hexChar (n % 16)]

def hexStr (n : Nat) : String := String.mk (hexDigitsAux 12 n)

/-- Numeric value of a list of hex digit characters (0-9, a-f, A-F). -/
def hexVal (cs : List Char) : Nat :=
  cs.foldl
    (fun a c =>
      a * 16 +
        (if c.isDigit then c.toNat - 48
         else if 'a' ≤ c then c.toNat - 87
         else c.toNat - 55))
    0

def isHexCh (c : Char) : Bool :=
  c.isDigit || ('a' ≤ c && c ≤ 'f') || ('A' ≤ c && c ≤ 'F')

/-! ## Address-library primitives (CPython ipaddress module semantics) -/

/-- Models CPython _parse_octet: 1 to 3 ASCII digits, no leading zero
unless the octet is exactly "0", value at most 255. -/
def parseOctet (cs : List Char) : Option Nat :=
  if cs.length = 0 ∨ 3 < cs.length then none
  else if ¬ cs.all Char.isDigit then none
  else if 1 < cs.length ∧ cs.headD 'x' = '0' then none
  else if decVal cs ≤ 255 then some (decVal cs) else none

/-- Models CPython IPv4Address parsing of a dotted-decimal string:
exactly four octets separated by dots. -/
def parseIPv4Chars (l : List Char) : Option Nat :=
  match splitCh '.' l with
  | [o1, o2, o3, o4] =>
    match parseOctet o1, parseOctet o2, parseOctet o3, parseOctet o4 with
    | some a, some b, some c, some d => some (((a * 256 + b) * 256 + c) * 256 + d)
    | _, _, _, _ => none
  | _ => none

def parseIPv4 (s : String) : Option Nat := parseIPv4Chars s.toList

/-- Models CPython prefix-length parsing: a nonempty all-digit string whose
value is at most the protocol's bit width. -/
def parseLenChars (cs : List Char) (top : Nat) : Option Nat :=
  if cs ≠ [] ∧ cs.all Char.isDigit then
    if decVal cs ≤ top then some (decVal cs) else none
  else none

/-- Models str(IPv4Address(a)): dotted decimal rendering. -/
def ipv4Render (a : Nat) : String :=
  decStr (a / 16777216 % 256) ++ "." ++ decStr (a / 65536 % 256) ++ "." ++
    decStr (a / 256 % 256) ++ "." ++ decStr (a % 256)

/-- Models CPython ip_network parsing of an IPv4 CIDR string
(address slash prefix-length), returning the unmasked address and prefix. -/
def parseCIDR4 (s : String) : Option (Nat × Nat) :=
  match splitCh '/' s.toList with
  | [a, pl] =>
    match parseIPv4Chars a, parseLenChars pl 32 with
    | some av, some pv => some (av, pv)
    | _, _ => none
  | _ => none

/-! ## Error conditions raised by the embedded code -/

/-- The distinct failure conditions of the embedded functions.
invalidInput models AssertionError from a violated assert (the spec's
InvalidInput); valueError models ValueError raised by the address library;
segmentRangeExceeded models the explicit ValueError raised by
derive_subnets (the spec's SegmentRangeExceeded). addressSpaceExhausted
is the error the spec prescribes for VLSM overflow. -/
inductive Err where
  | invalidInput
  | valueError
  | addressSpaceExhausted
  | segmentRangeExceeded
  deriving DecidableEq, Repr

/-! ## get_subnet_infos (src/ccna/ipv4.py lines 180-231) -/

/-- Embedding of get_subnet_infos. Checks, in source order: the assert that
the subnet string has no slash, the assert that the prefix length is in
[1, 32], then strict IPv4Network parsing (ValueError when the address does
not parse or has host bits set beyond the prefix), then the borrow loop
for bits = 1 .. 30 - prefix_length. Each row is
(bits, netmask string, 2^bits, 2^(32 - new_prefix) - 2). -/
def getSubnetInfos (subnet : String) (p : Int) : Except Err (List (Nat × String × Nat × Nat)) :=
  if '/' ∈ subnet.toList then Except.error Err.invalidInput
  else if p < 1 ∨ 32 < p then Except.error Err.invalidInput
  else
    match parseIPv4 subnet with
    | none => Except.error Err.valueError
    | some a =>
      if a % 2 ^ (32 - p.toNat) = 0 then
        Except.ok ((List.range (30 - p.toNat)).map (fun k =>
          (k + 1, ipv4Render (2 ^ 32 - 2 ^ (32 - (p.toNat + (k + 1)))),
            2 ^ (k + 1), 2 ^ (32 - (p.toNat + (k + 1))) - 2)))
      else Except.error Err.valueError

/-! ## get_vlsm_optimal_subnets (src/ccna/ipv4.py lines 234-283) -/

/-- The per-subnet record built by the allocator loop, mirroring the keys of
the Python dict (usable_hosts is num_addresses - 2, an int that can be
negative for a /32 block, hence Int). -/
structure SubnetInfo where
  subnet : String
  prefixLength : Nat
  network : String
  firstHost : String
  lastHost : String
  broadcast : String
  totalHosts : Nat
  usableHosts : Int
  deriving DecidableEq, Repr

/-- Models Python (hosts - 1).bit_length() for a natural hosts count:
(-1).bit_length() is 1, and for positive arguments bit_length(m) is the
number of exponents k with 2^k ≤ m. The count is capped at 64, which
agrees with Python for hosts below 2^64; every larger value makes the
caller fail its prefix-range check either way. -/
def pyBitLen (h : Nat) : Nat :=
  if h = 0 then 1 else (List.range 64).countP (fun k => 2 ^ k ≤ h - 1)

/-- Stable insertion of x into a descending list, after any equal elements,
as Python list.sort(reverse=True) orders them. -/
def insertDesc (x : Nat) : List Nat → List Nat
  | [] => [x]
  | y :: ys => if y < x then x :: y :: ys else y :: insertDesc x ys

/-- Models Python list.sort(reverse=True): stable descending sort. -/
def sortDesc : List Nat → List Nat
  | [] => []
  | x :: xs => insertDesc x (sortDesc xs)

/-- The allocator loop of get_vlsm_optimal_subnets. For each requirement:
required_prefix_length = 32 - (hosts - 1).bit_length() (ValueError when
negative, as IPv4Network rejects a negative prefix string); the block is
IPv4Network(current/required_prefix_length, strict=False), so its base is
the cursor with the low 32 - p bits masked off; the dict fields are built
in source order (first_host = network + 1 and last_host = broadcast - 1
raise ValueError when they leave the 32-bit address range, as
IPv4Address arithmetic does); finally the cursor moves to broadcast + 1,
which raises ValueError when it overflows 2^32 - 1. An error discards
every record already built, as a Python exception does. -/
def vlsmGo : Nat → List Nat → Except Err (List SubnetInfo)
  | _, [] => Except.ok []
  | cur, h :: hs =>
    let bl := pyBitLen h
    if 32 < bl then Except.error Err.valueError
    else
      let p := 32 - bl
      let sz := 2 ^ bl
      let base := cur - cur % sz
      let bcast := base + sz - 1
      if 2 ^ 32 ≤ base + 1 then Except.error Err.valueError
      else if bcast = 0 then Except.error Err.valueError
      else
        let info : SubnetInfo :=
          { subnet := ipv4Render base
            prefixLength := p
            network := ipv4Render base ++ "/" ++ decStr p
            firstHost := ipv4Render (base + 1)
            lastHost := ipv4Render (bcast - 1)
            broadcast := ipv4Render bcast
            totalHosts := sz
            usableHosts := (sz : Int) - 2 }
        if 2 ^ 32 ≤ bcast + 1 then Except.error Err.valueError
        else
          match vlsmGo (bcast + 1) hs with
          | Except.ok rest => Except.ok (info :: rest)
          | Except.error e => Except.error e

/-- Embedding of get_vlsm_optimal_subnets. The function first sorts the
caller's list in place (the second component of the result is the state of
the caller's list after the call), then parses the parent network
non-strictly and runs the allocator loop from the parent's network
address. There is no check of any block against the parent's range. -/
def getVlsmOptimalSubnets (origAddr : String) (origCidr : Int) (hosts : List Nat) :
    Except Err (List SubnetInfo) × List Nat :=
  let sorted := sortDesc hosts
  let res : Except Err (List SubnetInfo) :=
    match parseIPv4 origAddr with
    | none => Except.error Err.valueError
    | some a =>
      if origCidr < 0 ∨ 32 < origCidr then Except.error Err.valueError
      else vlsmGo (a - a % 2 ^ (32 - origCidr.toNat)) sorted
  (res, sorted)

/-! ## expand_hosts -/

/-- Modelled from the spec: the repository's tests import
get_hosts_from_subnet from ccna.ipv4, but src/ccna/ipv4.py does not define
it. Spec section 4.2, expand_hosts: parse a combined address/prefix CIDR
string, failing with InvalidInput when it is unparseable, mask host bits,
and return every usable host address (every address strictly between the
network and the broadcast address) in ascending numeric order as text;
prefix lengths 31 and 32 therefore yield the empty sequence. -/
def getHostsFromSubnet (s : String) : Except Err (List String) :=
  match parseCIDR4 s with
  | none => Except.error Err.invalidInput
  | some (a, p) =>
    let base := a - a % 2 ^ (32 - p)
    Except.ok ((List.range (2 ^ (32 - p) - 2)).map (fun k => ipv4Render (base + 1 + k)))

/-! ## IPv6 (src/ccna/ipv6.py) -/

/-- One side of a double colon: an empty side contributes no hextet groups,
a nonempty side is colon-separated groups of 1 to 4 hex digits. -/
def parseSide (cs : List Char) : Option (List Nat) :=
  if cs = [] then some []
  else
    (splitCh ':' cs).mapM (fun g =>
      if g ≠ [] ∧ g.length ≤ 4 ∧ g.all isHexCh then some (hexVal g) else none)

/-- Models CPython IPv6Address parsing (without embedded IPv4 forms): either
exactly eight hextet groups, or one double colon standing for at least one
zero group. Returns the 128-bit value. -/
def parseIPv6Chars (cs : List Char) : Option Nat :=
  match splitCC cs with
  | [one] =>
    match parseSide one with
    | some gs => if one ≠ [] ∧ gs.length = 8 then
        some (gs.foldl (fun a v => a * 65536 + v) 0) else none
    | none => none
  | [l, r] =>
    match parseSide l, parseSide r with
    | some gl, some gr =>
      if gl.length + gr.length ≤ 7 then
        some ((gl ++ List.replicate (8 - gl.length - gr.length) 0 ++ gr).foldl
          (fun a v => a * 65536 + v) 0)
      else none
    | _, _ => none
  | _ => none

/-- Models CPython ip_network on an IPv6 string: an optional slash and
prefix length (defaulting to 128), returning the unmasked address value
and the prefix length. -/
def parseIPv6Net (s : String) : Option (Nat × Nat) :=
  match splitCh '/' s.toList with
  | [a] => (parseIPv6Chars a).map (fun v => (v, 128))
  | [a, pl] =>
    match parseIPv6Chars a, parseLenChars pl 128 with
    | some v, some p => some (v, p)
    | _, _ => none
  | _ => none

/-- The eight 16-bit hextet values of a 128-bit address, most significant
first, as the exploded form lists them. -/
def hextetsOf (a : Nat) : List Nat :=
  (List.range 8).map (fun i => a / 2 ^ (16 * (7 - i)) % 65536)

/-- One step of CPython _compress_hextets' scan for the best run of zero
groups: state is ((bestStart, bestLen), (curStart, curLen)), and the first
longest run wins because only a strictly longer run replaces the best. -/
def zeroRunStep (st : (Nat × Nat) × (Nat × Nat)) (ix : Nat × Nat) : (Nat × Nat) × (Nat × Nat) :=
  if ix.2 = 0 then
    let cs2 := if st.2.2 = 0 then ix.1 else st.2.1
    let cl2 := st.2.2 + 1
    if st.1.2 < cl2 then ((cs2, cl2), (cs2, cl2)) else (st.1, (cs2, cl2))
  else (st.1, (0, 0))

def bestZeroRun (l : List Nat) : Nat × Nat :=
  (l.enum.foldl zeroRunStep ((0, 0), (0, 0))).1

def colonSep : String := ":"

/-- Models str(IPv6Address(value)) given the hextet values: each group in
minimal lowercase hex, with the first longest run of at least two zero
groups replaced by a double colon. -/
def compressHextets (l : List Nat) : String :=
  let bs := (bestZeroRun l).1
  let bl := (bestZeroRun l).2
  let gs := l.map hexStr
  if 1 < bl then
    String.intercalate colonSep (gs.take bs) ++ "::" ++
      String.intercalate colonSep (gs.drop (bs + bl))
  else String.intercalate colonSep gs

/-- The loop of derive_subnets: for i = 1 .. count, the new hextet 3 value
is the base hextet 3 plus i; values above 0xFFFF raise (discarding every
string already built); otherwise segments 0-2 and 4-7 are kept and the
tail assignment new_segments with the last three base segments is the
slice rewrite the source performs. Results are compressed and suffixed
with /64. -/
def deriveGo (hx : List Nat) (h3 : Nat) : Nat → Nat → Except Err (List String)
  | _, 0 => Except.ok []
  | i, n + 1 =>
    if 65535 < h3 + i then Except.error Err.segmentRangeExceeded
    else
      let nhx := ((hx.set 3 (h3 + i)).take 5) ++ hx.drop 5
      match deriveGo hx h3 (i + 1) n with
      | Except.ok rest => Except.ok ((compressHextets nhx ++ "/64") :: rest)
      | Except.error e => Except.error e

/-- Embedding of derive_subnets (src/ccna/ipv6.py lines 49-97): parse the
starting block non-strictly, mask to its network address, read hextet 3 of
the exploded form, and run the increment loop. -/
def deriveSubnets (s : String) (count : Nat) : Except Err (List String) :=
  match parseIPv6Net s with
  | none => Except.error Err.valueError
  | some (v, p) =>
    let base := v - v % 2 ^ (128 - p)
    deriveGo (hextetsOf base) ((hextetsOf base).getD 3 0) 1 count

/-! ## Specification-side helper definitions for the allocation invariants -/

/-- The block size 2^(32 - p) of each requirement, in allocation order. -/
def sizesOf (hs : List Nat) : List Nat := hs.map (fun h => 2 ^ pyBitLen h)

/-- The base addresses a back-to-back packing would use: each block starts
where the previous one ended. -/
def basesFrom (b : Nat) : List Nat → List Nat
  | [] => []
  | s :: ss => b :: basesFrom (b + s) ss

/-- The cursor is already aligned for every block: each block size divides
the cursor address at its allocation step, so the non-strict masking in
the loop is a no-op. -/
def alignedB : Nat → List Nat → Bool
  | _, [] => true
  | cur, s :: ss => (cur % s = 0) && alignedB (cur + s) ss

/-! ## Lemmas about the derive_subnets loop -/

/-- When no hextet value overflows, the loop yields one compressed string
per iteration, the k-th (counting from zero) replacing hextet 3 by the
base value plus i plus k. -/
theorem deriveGo_ok (hx : List Nat) (h3 : Nat) :
    ∀ (n i : Nat), h3 + i + n ≤ 65536 →
      deriveGo hx h3 i n = Except.ok ((List.range n).map (fun k =>
        compressHextets (((hx.set 3 (h3 + i + k)).take 5) ++ hx.drop 5) ++ "/64")) := by
  intro n
  induction n with
  | zero => intro i _; rfl
  | succ n ih =>
    intro i hb
    have hle : ¬ 65535 < h3 + i := by omega
    rw [deriveGo, if_neg hle, ih (i + 1) (by omega)]
    show Except.ok ((compressHextets ((List.take 5 (hx.set 3 (h3 + i))) ++ List.drop 5 hx) ++ "/64") ::
        List.map (fun k => compressHextets (List.take 5 (hx.set 3 (h3 + (i + 1) + k)) ++ List.drop 5 hx) ++ "/64")
          (List.range n)) = _
    rw [List.range_succ_eq_map, List.map_cons, List.map_map]
    congr 1
    congr 1
    apply List.map_congr_left
    intro k _
    have harg : h3 + (i + 1) + k = h3 + i + (k + 1) := by omega
    simp only [Function.comp, harg, Nat.succ_eq_add_one]

/-- When the run would push hextet 3 above 0xFFFF at some iteration, the
loop fails with the segment-range error and every already-built string is
discarded. -/
theorem deriveGo_err (hx : List Nat) (h3 : Nat) :
    ∀ (n i : Nat), 1 ≤ n → 65537 ≤ h3 + i + n →
      deriveGo hx h3 i n = Except.error Err.segmentRangeExceeded := by
  intro n
  induction n with
  | zero => intro i h0 _; omega
  | succ n ih =>
    intro i _ hov
    by_cases hfst : 65535 < h3 + i
    · rw [deriveGo, if_pos hfst]
    · have hn : 1 ≤ n := by omega
      rw [deriveGo, if_neg hfst, ih (i + 1) hn (by omega)]

/-- Claim C8: for every parseable starting block and every count for which
no hextet overflow occurs, derive_subnets returns exactly count strings in
ascending order: the k-th entry (k from 0, so i = k + 1 runs 1..count) is
the compressed form of the block's normalized network address with only
hextet index 3 replaced by its original value plus i, suffixed with /64;
count = 0 yields the empty sequence. -/
theorem c8_derive_ok (s : String) (v p count : Nat)
    (hp : parseIPv6Net s = some (v, p))
    (hnov : (hextetsOf (v - v % 2 ^ (128 - p))).getD 3 0 + count ≤ 65535) :
    deriveSubnets s count = Except.ok ((List.range count).map (fun k =>
      compressHextets ((((hextetsOf (v - v % 2 ^ (128 - p))).set 3
          ((hextetsOf (v - v % 2 ^ (128 - p))).getD 3 0 + 1 + k)).take 5) ++
        (hextetsOf (v - v % 2 ^ (128 - p))).drop 5) ++ "/64")) := by
  unfold deriveSubnets
  rw [hp]
  exact deriveGo_ok _ _ count 1 (by omega)

/-- Claim C8 witness: the spec's worked example, plus the count = 0 case. -/
theorem c8_derive_ok_witness :
    parseIPv6Net ("2001:db8:acad:00c8::0/64") =
      some (42540766464723162402317482361450659840, 64) ∧
    deriveSubnets ("2001:db8:acad:00c8::0/64") 4 = Except.ok
      ["2001:db8:acad:c9::/64", "2001:db8:acad:ca::/64",
       "2001:db8:acad:cb::/64", "2001:db8:acad:cc::/64"] ∧
    deriveSubnets ("2001:db8:acad:00c8::0/64") 4 = Except.ok ((List.range 4).map (fun k =>
      compressHextets ((((hextetsOf (42540766464723162402317482361450659840 -
            42540766464723162402317482361450659840 % 2 ^ (128 - 64))).set 3
          ((hextetsOf (42540766464723162402317482361450659840 -
            42540766464723162402317482361450659840 % 2 ^ (128 - 64))).getD 3 0 + 1 + k)).take 5) ++
        (hextetsOf (42540766464723162402317482361450659840 -
          42540766464723162402317482361450659840 % 2 ^ (128 - 64))).drop 5) ++ "/64")) ∧
    deriveSubnets ("2001:db8:acad:00c8::0/64") 0 = Except.ok [] :=
  ⟨by rfl, by rfl,
   c8_derive_ok _ 42540766464723162402317482361450659840 64 4 (by rfl) (by decide),
   c8_derive_ok _ 42540766464723162402317482361450659840 64 0 (by rfl) (by decide)⟩

/-- Claim C9: derive_subnets fails with the segment-range error exactly when
hextet 3 of the normalized network address plus count exceeds 0xFFFF (for
count at least 1), and the failure is atomic: on overflow no list at all,
in particular no partial one, is returned. -/
theorem c9_segment_overflow (s : String) (v p count : Nat)
    (hp : parseIPv6Net s = some (v, p)) (hc : 1 ≤ count) :
    (deriveSubnets s count = Except.error Err.segmentRangeExceeded ↔
      65535 < (hextetsOf (v - v % 2 ^ (128 - p))).getD 3 0 + count) ∧
    (65535 < (hextetsOf (v - v % 2 ^ (128 - p))).getD 3 0 + count →
      ∀ l, deriveSubnets s count ≠ Except.ok l) := by
  have herrdir : 65535 < (hextetsOf (v - v % 2 ^ (128 - p))).getD 3 0 + count →
      deriveSubnets s count = Except.error Err.segmentRangeExceeded := by
    intro hgt
    unfold deriveSubnets
    rw [hp]
    exact deriveGo_err _ _ count 1 hc (by omega)
  have hokdir : (hextetsOf (v - v % 2 ^ (128 - p))).getD 3 0 + count ≤ 65535 →
      ∃ l, deriveSubnets s count = Except.ok l := by
    intro hle
    simp only [deriveSubnets, hp]
    exact ⟨_, deriveGo_ok _ _ count 1 (by omega)⟩
  constructor
  · constructor
    · intro herr
      by_contra hgt
      obtain ⟨l, hok⟩ := hokdir (by omega)
      rw [hok] at herr
      exact Except.noConfusion herr
    · exact herrdir
  · intro hgt l hok
    rw [herrdir hgt] at hok
    exact Except.noConfusion hok

/-- Claim C9 witness: the spec's overflow example raises the segment-range
error. -/
theorem c9_segment_overflow_witness :
    deriveSubnets ("2001:0db8:85a3:ffff::/64") 2 = Except.error Err.segmentRangeExceeded :=
  ((c9_segment_overflow _ 42540766452642362979112934202991968256 64 2
    (by rfl) (by decide)).1).mpr (by decide)

/-- Claim C5: for every network-aligned parseable base address and prefix
length between 1 and 32, get_subnet_infos returns exactly 30 - p rows in
ascending borrow order, row i (0-based, borrow amount i + 1) being the
borrow amount, the dotted mask for prefix p + i + 1, the subnet count
2^(i+1), and the usable host count 2^(32-p-(i+1)) - 2; for p at least 30
the result is empty. -/
theorem c5_borrow_rows (s : String) (p : Int) (a : Nat)
    (hparse : parseIPv4 s = some a)
    (hsl : ¬ '/' ∈ s.toList)
    (h1 : 1 ≤ p) (h32 : p ≤ 32)
    (hal : a % 2 ^ (32 - p.toNat) = 0) :
    ∃ rows, getSubnetInfos s p = Except.ok rows ∧
      rows.length = 30 - p.toNat ∧
      (30 ≤ p → rows = []) ∧
      ∀ (i : Nat) (hi : i < rows.length),
        rows[i] = (i + 1,
          ipv4Render (2 ^ 32 - 2 ^ (32 - (p.toNat + (i + 1)))),
          2 ^ (i + 1), 2 ^ (32 - (p.toNat + (i + 1))) - 2) := by
  have hrng : ¬ (p < 1 ∨ 32 < p) := by omega
  refine ⟨(List.range (30 - p.toNat)).map (fun k =>
      (k + 1, ipv4Render (2 ^ 32 - 2 ^ (32 - (p.toNat + (k + 1)))),
        2 ^ (k + 1), 2 ^ (32 - (p.toNat + (k + 1))) - 2)), ?_, ?_, ?_, ?_⟩
  · simp only [getSubnetInfos, hparse, if_neg hsl, if_neg hrng, if_pos hal]
  · simp
  · intro h30
    have hz : 30 - p.toNat = 0 := by omega
    simp [hz]
  · intro i hi
    simp only [List.length_map, List.length_range] at hi
    simp [List.getElem_map, List.getElem_range]

/-- Claim C5 witness: the spec's worked example for 192.168.100.0/24. -/
theorem c5_borrow_rows_witness :
    getSubnetInfos ("192.168.100.0") 24 = Except.ok
      [(1, "255.255.255.128", 2, 126), (2, "255.255.255.192", 4, 62),
       (3, "255.255.255.224", 8, 30), (4, "255.255.255.240", 16, 14),
       (5, "255.255.255.248", 32, 6), (6, "255.255.255.252", 64, 2)] ∧
    (∃ rows, getSubnetInfos ("192.168.100.0") 24 = Except.ok rows ∧
      rows.length = 30 - (24 : Int).toNat ∧
      ((30 : Int) ≤ 24 → rows = []) ∧
      ∀ (i : Nat) (hi : i < rows.length),
        rows[i] = (i + 1,
          ipv4Render (2 ^ 32 - 2 ^ (32 - ((24 : Int).toNat + (i + 1)))),
          2 ^ (i + 1), 2 ^ (32 - ((24 : Int).toNat + (i + 1))) - 2)) :=
  ⟨by rfl,
   c5_borrow_rows ("192.168.100.0") 24 3232261120 (by rfl) (by decide)
     (by decide) (by decide) (by rfl)⟩

/-- Claim C6: get_subnet_infos fails with InvalidInput (the assert) exactly
when the base address string contains a slash or the prefix length lies
outside [1, 32]; when both preconditions hold this error is never
raised. -/
theorem c6_invalid_input_iff (s : String) (p : Int) :
    getSubnetInfos s p = Except.error Err.invalidInput ↔
      ('/' ∈ s.toList ∨ p < 1 ∨ 32 < p) := by
  constructor
  · intro h
    by_contra hno
    push_neg at hno
    obtain ⟨hs, hp1, hp2⟩ := hno
    unfold getSubnetInfos at h
    rw [if_neg hs, if_neg (by omega : ¬ (p < 1 ∨ 32 < p))] at h
    cases hpar : parseIPv4 s with
    | none =>
      rw [hpar] at h
      simp at h
    | some a =>
      rw [hpar] at h
      by_cases h3 : a % 2 ^ (32 - p.toNat) = 0
      · simp [h3] at h
      · simp [h3] at h
  · intro h
    unfold getSubnetInfos
    by_cases hs : '/' ∈ s.toList
    · rw [if_pos hs]
    · rcases h with h | h
      · exact absurd h hs
      · rw [if_neg hs, if_pos h]

/-- Claim C10: with a syntactically valid slash-free address and a prefix
length in [1, 32], get_subnet_infos raises (ValueError from the strict
network parse) whenever the address has a nonzero bit beyond the first p
bits, producing no rows; for addresses whose bits beyond p are all zero no
such error occurs and the rows depend only on p. -/
theorem c10_strict_network (s : String) (p : Int) (a : Nat)
    (hparse : parseIPv4 s = some a) (hsl : ¬ '/' ∈ s.toList)
    (h1 : 1 ≤ p) (h32 : p ≤ 32) :
    (a % 2 ^ (32 - p.toNat) ≠ 0 → getSubnetInfos s p = Except.error Err.valueError) ∧
    (a % 2 ^ (32 - p.toNat) = 0 →
      ∀ (s2 : String) (a2 : Nat), parseIPv4 s2 = some a2 → ¬ '/' ∈ s2.toList →
        a2 % 2 ^ (32 - p.toNat) = 0 →
        getSubnetInfos s2 p = getSubnetInfos s p ∧
        ∃ rows, getSubnetInfos s p = Except.ok rows) := by
  have hrng : ¬ (p < 1 ∨ 32 < p) := by omega
  constructor
  · intro hne
    simp only [getSubnetInfos, hparse, if_neg hsl, if_neg hrng, if_neg hne]
  · intro hal s2 a2 hparse2 hsl2 hal2
    constructor
    · simp only [getSubnetInfos, hparse, hparse2, if_neg hsl, if_neg hsl2, if_neg hrng,
        if_pos hal, if_pos hal2]
    · refine ⟨(List.range (30 - p.toNat)).map (fun k =>
        (k + 1, ipv4Render (2 ^ 32 - 2 ^ (32 - (p.toNat + (k + 1)))),
          2 ^ (k + 1), 2 ^ (32 - (p.toNat + (k + 1))) - 2)), ?_⟩
      simp only [getSubnetInfos, hparse, if_neg hsl, if_neg hrng, if_pos hal]

/-- Claim C10 witness: 192.168.1.1 is not on a /24 boundary so the call
raises, while 10.0.0.0 and 192.168.100.0 are aligned and give the same
rows. -/
theorem c10_strict_network_witness :
    getSubnetInfos ("192.168.1.1") 24 = Except.error Err.valueError ∧
    getSubnetInfos ("10.0.0.0") 24 = getSubnetInfos ("192.168.100.0") 24 := by
  constructor
  · exact (c10_strict_network ("192.168.1.1") 24 3232235777 (by rfl) (by decide)
      (by decide) (by decide)).1 (by decide)
  · exact ((c10_strict_network ("192.168.100.0") 24 3232261120 (by rfl) (by decide)
      (by decide) (by decide)).2 (by rfl) ("10.0.0.0") 167772160 (by rfl) (by decide)
      (by rfl)).1

/-- Claim C7 (spec-modelled): expand_hosts on a parseable CIDR block yields
every usable host address (every address strictly between the network and
broadcast addresses) in ascending numeric order as text, the empty
sequence when the prefix length is 31 or 32, and the InvalidInput error on
an unparseable argument. -/
theorem c7_host_expansion (s : String) :
    (∀ (a p : Nat), parseCIDR4 s = some (a, p) →
      getHostsFromSubnet s = Except.ok ((List.range (2 ^ (32 - p) - 2)).map
        (fun k => ipv4Render ((a - a % 2 ^ (32 - p)) + 1 + k))) ∧
      (31 ≤ p → getHostsFromSubnet s = Except.ok [])) ∧
    (parseCIDR4 s = none → getHostsFromSubnet s = Except.error Err.invalidInput) := by
  constructor
  · intro a p hp
    have hmain : getHostsFromSubnet s = Except.ok ((List.range (2 ^ (32 - p) - 2)).map
        (fun k => ipv4Render ((a - a % 2 ^ (32 - p)) + 1 + k))) := by
      simp only [getHostsFromSubnet, hp]
    refine ⟨hmain, ?_⟩
    intro h31
    rw [hmain]
    have hz : 2 ^ (32 - p) - 2 = 0 := by
      rcases (by omega : 32 - p = 0 ∨ 32 - p = 1) with hc | hc <;> rw [hc] <;> rfl
    rw [hz]
    rfl
  · intro hp
    simp only [getHostsFromSubnet, hp]

set_option maxRecDepth 100000

/-- Claim C7 witness: the /24 block has the 254 hosts from .1 to .254, the
/32 block has none, and a malformed argument fails with InvalidInput. -/
theorem c7_host_expansion_witness :
    parseCIDR4 ("192.168.1.0/24") = some (3232235776, 24) ∧
    getHostsFromSubnet ("192.168.1.0/24") = Except.ok ((List.range (2 ^ (32 - 24) - 2)).map
      (fun k => ipv4Render ((3232235776 - 3232235776 % 2 ^ (32 - 24)) + 1 + k))) ∧
    (getHostsFromSubnet ("192.168.1.0/24")).toOption.map
        (fun l => (l.length, l.head?, l.getLast?)) =
      some (254, some ("192.168.1.1"), some ("192.168.1.254")) ∧
    getHostsFromSubnet ("192.168.1.1/32") = Except.ok [] ∧
    getHostsFromSubnet ("invalid-cidr") = Except.error Err.invalidInput :=
  ⟨by rfl,
   ((c7_host_expansion ("192.168.1.0/24")).1 3232235776 24 (by rfl)).1,
   by rfl,
   ((c7_host_expansion ("192.168.1.1/32")).1 3232235777 32 (by rfl)).2 (by omega),
   (c7_host_expansion ("invalid-cidr")).2 (by rfl)⟩

/-! ## Lemmas about the in-place descending sort -/

/-- Inserting into a list permutes consing the element onto it. -/
theorem insertDesc_perm (x : Nat) : ∀ l : List Nat, (insertDesc x l).Perm (x :: l)
  | [] => List.Perm.refl _
  | y :: ys => by
    unfold insertDesc
    by_cases h : y < x
    · rw [if_pos h]
    · rw [if_neg h]
      exact ((insertDesc_perm x ys).cons y).trans (List.Perm.swap x y ys)

/-- The sorted list is a permutation of the input. -/
theorem sortDesc_perm : ∀ l : List Nat, (sortDesc l).Perm l
  | [] => List.Perm.refl _
  | x :: xs => (insertDesc_perm x (sortDesc xs)).trans ((sortDesc_perm xs).cons x)

/-- Insertion preserves the descending order. -/
theorem insertDesc_sorted (x : Nat) :
    ∀ l : List Nat, l.Pairwise (fun a b => b ≤ a) →
      (insertDesc x l).Pairwise (fun a b => b ≤ a)
  | [], _ => by simp [insertDesc]
  | y :: ys, h => by
    rw [List.pairwise_cons] at h
    obtain ⟨hy, hys⟩ := h
    unfold insertDesc
    by_cases hlt : y < x
    · rw [if_pos hlt]
      refine List.Pairwise.cons ?_ (List.Pairwise.cons hy hys)
      intro b hb
      rcases List.mem_cons.mp hb with rfl | hb2
      · omega
      · have := hy b hb2
        omega
    · rw [if_neg hlt]
      refine List.Pairwise.cons ?_ (insertDesc_sorted x ys hys)
      intro b hb
      have hb2 := (insertDesc_perm x ys).mem_iff.mp hb
      rcases List.mem_cons.mp hb2 with rfl | hb3
      · omega
      · exact hy b hb3

/-- The sort's output is descending. -/
theorem sortDesc_sorted : ∀ l : List Nat, (sortDesc l).Pairwise (fun a b => b ≤ a)
  | [] => List.Pairwise.nil
  | x :: xs => insertDesc_sorted x (sortDesc xs) (sortDesc_sorted xs)

/-- Claim C4 counterexample: the allocator sorts the caller's list in
place, so after allocate(192.168.1.0, 24, [10, 50]) the caller's list is
[50, 10], not its original order. -/
theorem c4_counterexample_mutation :
    (getVlsmOptimalSubnets ("192.168.1.0") 24 [10, 50]).2 = [50, 10] ∧
    ([50, 10] : List Nat) ≠ [10, 50] := ⟨by rfl, by decide⟩

/-- Claim C4 (amended): after a call the caller's required_hosts list still
holds exactly its original elements (as a multiset), but re-ordered: the
in-place sort leaves it sorted descending. -/
theorem c4_sorted_permutation (origAddr : String) (origCidr : Int) (hosts : List Nat) :
    (getVlsmOptimalSubnets origAddr origCidr hosts).2 = sortDesc hosts ∧
    ((getVlsmOptimalSubnets origAddr origCidr hosts).2).Perm hosts ∧
    ((getVlsmOptimalSubnets origAddr origCidr hosts).2).Pairwise (fun x y => y ≤ x) :=
  ⟨rfl, sortDesc_perm hosts, sortDesc_sorted hosts⟩

/-- Claim C1: the code contradicts the claim. For the requirement h = 64
under parent 192.168.1.0/24 the allocator emits a /26 block whose
usable_hosts field is 62, below the requested 64 hosts; the claimed
minimal prefix with 2^(32-p) - 2 at least 64 would be /25. The code sizes
blocks by total addresses, not usable hosts. -/
theorem c1_undersized_block :
    (getVlsmOptimalSubnets ("192.168.1.0") 24 [64]).1 =
      Except.ok [{ subnet := "192.168.1.0"
                   prefixLength := 26
                   network := "192.168.1.0/26"
                   firstHost := "192.168.1.1"
                   lastHost := "192.168.1.62"
                   broadcast := "192.168.1.63"
                   totalHosts := 64
                   usableHosts := 62 }] ∧
    (62 : Int) < 64 ∧ (2 : Nat) ^ (32 - 25) - 2 ≥ 64 :=
  ⟨by rfl, by decide, by decide⟩

/-- Claim C2: the code contradicts the claim (and its own test). For
allocate(192.168.1.0, 30, [10]) the allocator returns normally with a /28
block whose broadcast 192.168.1.15 lies beyond the parent /30 block's
broadcast 192.168.1.3: no overflow check exists and no error is
raised. -/
theorem c2_overflow_unchecked :
    (getVlsmOptimalSubnets ("192.168.1.0") 30 [10]).1 =
      Except.ok [{ subnet := "192.168.1.0"
                   prefixLength := 28
                   network := "192.168.1.0/28"
                   firstHost := "192.168.1.1"
                   lastHost := "192.168.1.14"
                   broadcast := "192.168.1.15"
                   totalHosts := 16
                   usableHosts := 14 }] ∧
    parseIPv4 ("192.168.1.0") = some 3232235776 ∧
    ipv4Render (3232235776 + 2 ^ (32 - 30) - 1) = "192.168.1.3" ∧
    parseIPv4 ("192.168.1.15") = some 3232235791 ∧
    parseIPv4 ("192.168.1.3") = some 3232235779 ∧
    3232235779 < 3232235791 :=
  ⟨by rfl, by rfl, by rfl, by rfl, by rfl, by decide⟩

/-! ## Lemmas about the allocator loop geometry -/

/-- Every base produced from b onwards is at least b when the sizes are
positive. -/
theorem basesFrom_lb : ∀ (ss : List Nat) (b : Nat), (∀ s ∈ ss, 0 < s) →
    ∀ x ∈ basesFrom b ss, b ≤ x
  | [], _, _, x, hx => absurd hx (List.not_mem_nil x)
  | s :: ss, b, hpos, x, hx => by
    rw [basesFrom] at hx
    rcases List.mem_cons.mp hx with rfl | hx2
    · exact Nat.le_refl x
    · have hs : 0 < s := hpos s (List.mem_cons_self s ss)
      have := basesFrom_lb ss (b + s) (fun t ht => hpos t (List.mem_cons_of_mem s ht)) x hx2
      omega

/-- Consecutive blocks are back-to-back: each base is the previous base
plus the previous size. -/
theorem basesFrom_chain : ∀ (ss : List Nat) (b : Nat),
    List.Chain' (fun x y => y.1 = x.1 + x.2) ((basesFrom b ss).zip ss)
  | [], _ => List.chain'_nil
  | s :: ss, b => by
    rw [basesFrom, List.zip_cons_cons]
    rw [List.chain'_cons']
    refine ⟨?_, basesFrom_chain ss (b + s)⟩
    intro y hy
    cases ss with
    | nil => simp at hy
    | cons t ts =>
      rw [basesFrom, List.zip_cons_cons] at hy
      simp only [List.head?_cons, Option.mem_def, Option.some.injEq] at hy
      rw [← hy]

/-- Blocks with positive sizes packed back-to-back are pairwise disjoint
and in ascending base order: each block ends at or before the next
begins. -/
theorem basesFrom_pairwise : ∀ (ss : List Nat) (b : Nat), (∀ s ∈ ss, 0 < s) →
    List.Pairwise (fun x y => x.1 + x.2 ≤ y.1) ((basesFrom b ss).zip ss)
  | [], _, _ => List.Pairwise.nil
  | s :: ss, b, hpos => by
    rw [basesFrom, List.zip_cons_cons]
    refine List.Pairwise.cons ?_
      (basesFrom_pairwise ss (b + s) (fun t ht => hpos t (List.mem_cons_of_mem s ht)))
    intro y hy
    have hy1 : y.1 ∈ basesFrom (b + s) ss := (List.of_mem_zip hy).1
    exact basesFrom_lb ss (b + s) (fun t ht => hpos t (List.mem_cons_of_mem s ht)) y.1 hy1

/-- Every block size is positive. -/
theorem sizesOf_pos (hs : List Nat) : ∀ s ∈ sizesOf hs, 0 < s := by
  intro s hsmem
  obtain ⟨h, _, rfl⟩ := List.mem_map.mp hsmem
  exact pow_pos (by norm_num) _

/-- When the cursor is aligned for every block, the allocator loop emits
exactly the back-to-back packing: block k's network address is the k-th
base and its broadcast is that base plus its size minus one. -/
theorem vlsmGo_ok_aligned : ∀ (hs : List Nat) (cur : Nat) (l : List SubnetInfo),
    alignedB cur (sizesOf hs) = true →
    vlsmGo cur hs = Except.ok l →
    l.map (fun r => r.subnet) = (basesFrom cur (sizesOf hs)).map ipv4Render ∧
    l.map (fun r => r.broadcast) =
      (List.zipWith (fun b s => b + s - 1) (basesFrom cur (sizesOf hs)) (sizesOf hs)).map
        ipv4Render
  | [], cur, l, _, hok => by
    rw [vlsmGo] at hok
    have hl : l = [] := (Except.ok.inj hok).symm
    subst hl
    exact ⟨rfl, rfl⟩
  | h :: hs, cur, l, hal, hok => by
    have hsz : sizesOf (h :: hs) = 2 ^ pyBitLen h :: sizesOf hs := rfl
    rw [hsz] at hal
    rw [alignedB, Bool.and_eq_true] at hal
    obtain ⟨hmodb, hal2⟩ := hal
    have hmod : cur % 2 ^ pyBitLen h = 0 := by simpa using hmodb
    have hpos : 0 < 2 ^ pyBitLen h := pow_pos (by norm_num) _
    rw [vlsmGo] at hok
    by_cases hbl : 32 < pyBitLen h
    · rw [if_pos hbl] at hok
      exact absurd hok (by simp)
    · rw [if_neg hbl] at hok
      simp only [hmod, Nat.sub_zero] at hok
      by_cases hov1 : 2 ^ 32 ≤ cur + 1
      · rw [if_pos hov1] at hok
        exact absurd hok (by simp)
      · rw [if_neg hov1] at hok
        by_cases hz : cur + 2 ^ pyBitLen h - 1 = 0
        · rw [if_pos hz] at hok
          exact absurd hok (by simp)
        · rw [if_neg hz] at hok
          by_cases hov2 : 2 ^ 32 ≤ cur + 2 ^ pyBitLen h - 1 + 1
          · rw [if_pos hov2] at hok
            exact absurd hok (by simp)
          · rw [if_neg hov2] at hok
            have hstep : cur + 2 ^ pyBitLen h - 1 + 1 = cur + 2 ^ pyBitLen h := by omega
            rw [hstep] at hok
            cases hrec : vlsmGo (cur + 2 ^ pyBitLen h) hs with
            | error e =>
              rw [hrec] at hok
              exact absurd hok (by simp)
            | ok rest =>
              rw [hrec] at hok
              simp only [] at hok
              have hl : l = _ :: rest := (Except.ok.inj hok).symm
              subst hl
              obtain ⟨ih1, ih2⟩ := vlsmGo_ok_aligned hs (cur + 2 ^ pyBitLen h) rest hal2 hrec
              constructor
              · rw [hsz, basesFrom, List.map_cons, List.map_cons, ih1]
              · rw [hsz, basesFrom, List.zipWith_cons_cons, List.map_cons, List.map_cons, ih2]


/-- Claim C3 counterexample: for allocate(192.168.1.4, 30, [10]) the parent
network address is 192.168.1.4 (already /30-aligned), but the only emitted
block has base address 192.168.1.0: the non-strict network construction
rounds the cursor down when the block is larger than the cursor's
alignment, so the first block's base does not equal the parent's network
address. -/
theorem c3_counterexample_unaligned :
    (getVlsmOptimalSubnets ("192.168.1.4") 30 [10]).1 =
      Except.ok [{ subnet := "192.168.1.0"
                   prefixLength := 28
                   network := "192.168.1.0/28"
                   firstHost := "192.168.1.1"
                   lastHost := "192.168.1.14"
                   broadcast := "192.168.1.15"
                   totalHosts := 16
                   usableHosts := 14 }] ∧
    parseIPv4 ("192.168.1.4") = some 3232235780 ∧
    3232235780 % 2 ^ (32 - (30 : Int).toNat) = 0 ∧
    ipv4Render 3232235780 = "192.168.1.4" ∧
    ("192.168.1.0" : String) ≠ "192.168.1.4" :=
  ⟨by rfl, by rfl, by rfl, by rfl, by decide⟩

/-- Claim C3 (amended): whenever the allocator returns and the cursor is
already aligned for every block (each block's size divides the cursor
address at its step, which holds in particular when every requirement is
at least 1 and every computed prefix is at least the parent prefix), the
emitted blocks are packed back-to-back with no re-alignment: the first
block's base address is the parent's network address, each block's
broadcast is its base plus its size minus one, each subsequent base equals
the previous base plus the previous size (the previous broadcast plus
one), and the blocks are pairwise non-overlapping in ascending
base-address order; an empty requirements list yields the empty result
with no error. -/
theorem c3_packed_allocation (origAddr : String) (origCidr : Int) (hosts : List Nat)
    (a : Nat) (l : List SubnetInfo)
    (hparse : parseIPv4 origAddr = some a)
    (hc0 : 0 ≤ origCidr) (hc32 : origCidr ≤ 32)
    (hal : alignedB (a - a % 2 ^ (32 - origCidr.toNat)) (sizesOf (sortDesc hosts)) = true)
    (hok : (getVlsmOptimalSubnets origAddr origCidr hosts).1 = Except.ok l) :
    l.map (fun r => r.subnet) =
      (basesFrom (a - a % 2 ^ (32 - origCidr.toNat)) (sizesOf (sortDesc hosts))).map
        ipv4Render ∧
    l.map (fun r => r.broadcast) =
      (List.zipWith (fun b s => b + s - 1)
        (basesFrom (a - a % 2 ^ (32 - origCidr.toNat)) (sizesOf (sortDesc hosts)))
        (sizesOf (sortDesc hosts))).map ipv4Render ∧
    (∀ r, l.head? = some r →
      r.subnet = ipv4Render (a - a % 2 ^ (32 - origCidr.toNat))) ∧
    List.Chain' (fun x y => y.1 = x.1 + x.2)
      ((basesFrom (a - a % 2 ^ (32 - origCidr.toNat)) (sizesOf (sortDesc hosts))).zip
        (sizesOf (sortDesc hosts))) ∧
    List.Pairwise (fun x y => x.1 + x.2 ≤ y.1)
      ((basesFrom (a - a % 2 ^ (32 - origCidr.toNat)) (sizesOf (sortDesc hosts))).zip
        (sizesOf (sortDesc hosts))) ∧
    (hosts = [] → l = []) := by
  have hrng : ¬ (origCidr < 0 ∨ 32 < origCidr) := by omega
  have hloop : vlsmGo (a - a % 2 ^ (32 - origCidr.toNat)) (sortDesc hosts) = Except.ok l := by
    simpa only [getVlsmOptimalSubnets, hparse, if_neg hrng] using hok
  obtain ⟨h1, h2⟩ := vlsmGo_ok_aligned (sortDesc hosts) _ l hal hloop
  refine ⟨h1, h2, ?_, basesFrom_chain _ _, basesFrom_pairwise _ _ (sizesOf_pos _), ?_⟩
  · intro r hr
    have hh := congrArg List.head? h1
    rw [List.head?_map, List.head?_map, hr] at hh
    cases hsz : sizesOf (sortDesc hosts) with
    | nil =>
      rw [hsz, basesFrom] at hh
      simp at hh
    | cons s ss =>
      rw [hsz, basesFrom] at hh
      simp only [List.head?_cons, Option.map_some'] at hh
      exact Option.some.inj hh
  · intro he
    subst he
    have hz : (basesFrom (a - a % 2 ^ (32 - origCidr.toNat)) (sizesOf (sortDesc []))).map
        ipv4Render = [] := rfl
    rw [hz] at h1
    exact List.map_eq_nil_iff.mp h1

/-- Claim C3 witness: the spec's worked example 192.168.1.0/24 with
requirements [50, 20, 10] gives the /26, /27, /28 blocks at .0, .64, .96,
and the packing invariants hold for it. -/
theorem c3_packed_allocation_witness :
    (getVlsmOptimalSubnets ("192.168.1.0") 24 [50, 20, 10]).1 = Except.ok
      [{ subnet := "192.168.1.0"
         prefixLength := 26
         network := "192.168.1.0/26"
         firstHost := "192.168.1.1"
         lastHost := "192.168.1.62"
         broadcast := "192.168.1.63"
         totalHosts := 64
         usableHosts := 62 },
       { subnet := "192.168.1.64"
         prefixLength := 27
         network := "192.168.1.64/27"
         firstHost := "192.168.1.65"
         lastHost := "192.168.1.94"
         broadcast := "192.168.1.95"
         totalHosts := 32
         usableHosts := 30 },
       { subnet := "192.168.1.96"
         prefixLength := 28
         network := "192.168.1.96/28"
         firstHost := "192.168.1.97"
         lastHost := "192.168.1.110"
         broadcast := "192.168.1.111"
         totalHosts := 16
         usableHosts := 14 }] ∧
    alignedB (3232235776 - 3232235776 % 2 ^ (32 - (24 : Int).toNat))
      (sizesOf (sortDesc [50, 20, 10])) = true ∧
    List.Chain' (fun x y => y.1 = x.1 + x.2)
      ((basesFrom (3232235776 - 3232235776 % 2 ^ (32 - (24 : Int).toNat))
        (sizesOf (sortDesc [50, 20, 10]))).zip (sizesOf (sortDesc [50, 20, 10]))) ∧
    List.Pairwise (fun x y => x.1 + x.2 ≤ y.1)
      ((basesFrom (3232235776 - 3232235776 % 2 ^ (32 - (24 : Int).toNat))
        (sizesOf (sortDesc [50, 20, 10]))).zip (sizesOf (sortDesc [50, 20, 10]))) := by
  refine ⟨by rfl, by rfl, ?_, ?_⟩
  · exact (c3_packed_allocation ("192.168.1.0") 24 [50, 20, 10] 3232235776 _
      (by rfl) (by decide) (by decide) (by rfl) (by rfl)).2.2.2.1
  · exact (c3_packed_allocation ("192.168.1.0") 24 [50, 20, 10] 3232235776 _
      (by rfl) (by decide) (by decide) (by rfl) (by rfl)).2.2.2.2.1

end CCNA
